import Mathlib

/-!
Shallow embedding of `app.py` (YouTube Channel Comment Sorter).

Strings handled by the URL-resolution code are modelled as lists of
characters (`Str`); Python's `str.split`, `in` and `rstrip` are embedded
as executable functions with the same semantics. The YouTube Data API,
the `isodate` duration parser and Streamlit are external collaborators:
they are modelled as explicit environments supplying the responses the
code consumes.
-/

namespace CommentsCount

abbrev Str := List Char

/-- Python `sub in s` (substring containment): some position of `s`
starts with `sub`. Mirrors the `"..." in url` tests of `get_channel_id`. -/
def strContains (s sub : Str) : Bool :=
  match s with
  | [] => sub.isEmpty
  | _ :: rest => sub.isPrefixOf s || strContains rest sub

/-- Worker for `pySplit`, structurally recursive on a fuel argument so that
it evaluates inside the kernel. With `s.length ≤ fuel` the fuel branch is
never reached (each step consumes at least one character). -/
def pySplitF (sep : Str) : Nat → Str → List Str
  | _, [] => [[]]
  | 0, s => [s]
  | fuel + 1, c :: rest =>
    if sep ≠ [] ∧ sep.isPrefixOf (c :: rest) then
      [] :: pySplitF sep fuel ((c :: rest).drop sep.length)
    else
      match pySplitF sep fuel rest with
      | [] => [[c]]
      | s :: ss => (c :: s) :: ss

/-- Python `s.split(sep)` for a non-empty separator `sep`: cut `s` at each
non-overlapping occurrence of `sep`, scanning left to right.
`pySplit sep s` always returns at least one chunk, like Python. -/
def pySplit (sep s : Str) : List Str :=
  pySplitF sep s.length s

/-- Python `s.rstrip(c)`: remove every trailing occurrence of `c`. -/
def pyRstrip (s : Str) (c : Char) : Str :=
  (s.reverse.dropWhile (fun x => x == c)).reverse

/-- `url.split(sep)[1].split("/")[0]`: the path segment immediately after
the first occurrence of `sep` in `url` (the common extraction step of all
marker branches of `get_channel_id`). Index 1 always exists when `sep`
occurs in `url`, so the default of `getD` is never consulted there. -/
def segAfter (url sep : Str) : Str :=
  (pySplit ['/'] ((pySplit sep url).getD 1 [])).headD []

def chanMarker : Str := "/channel/".data
def userMarker : Str := "/user/".data
def cMarker : Str := "/c/".data
def atMarker : Str := "/@".data

/-- The YouTube Data API surface used by `get_channel_id`.
`channelsList u` models `channels().list(part="id", forUsername=u)`,
returning the ids of the items; `searchChannels q` models
`search().list(part="snippet", q=q, type="channel", maxResults=1)`,
returning the `snippet.channelId` of the items. -/
structure ResolverEnv where
  channelsList : Str → List Str
  searchChannels : Str → List Str

/-- `if "/channel/" in url: return url.split("/channel/")[1].split("/")[0]` -/
def channelBranch (url : Str) : Option Str × Nat :=
  (some (segAfter url chanMarker), 0)

/-- The `/user/` branch: one `channels().list` call, first item's id or None. -/
def userBranch (env : ResolverEnv) (url : Str) : Option Str × Nat :=
  ((env.channelsList (segAfter url userMarker)).head?, 1)

/-- The `/c/` branch: one `search().list` call, first item's channelId or None. -/
def cBranch (env : ResolverEnv) (url : Str) : Option Str × Nat :=
  ((env.searchChannels (segAfter url cMarker)).head?, 1)

/-- The `/@` branch: one `search().list` call, first item's channelId or None. -/
def atBranch (env : ResolverEnv) (url : Str) : Option Str × Nat :=
  ((env.searchChannels (segAfter url atMarker)).head?, 1)

/-- The fallback: `name = url.rstrip("/").split("/")[-1]`, then one search call. -/
def fallbackBranch (env : ResolverEnv) (url : Str) : Option Str × Nat :=
  ((env.searchChannels ((pySplit ['/'] (pyRstrip url '/')).getLastD [])).head?, 1)

/-- `get_channel_id(url)` of `app.py`, paired with the number of API calls
it executes (`.execute()` invocations; the `build(...)` client construction
performs no API lookup). -/
def get_channel_id (env : ResolverEnv) (url : Str) : Option Str × Nat :=
  if strContains url chanMarker then
    (some (segAfter url chanMarker), 0)
  else if strContains url userMarker then
    ((env.channelsList (segAfter url userMarker)).head?, 1)
  else if strContains url cMarker then
    ((env.searchChannels (segAfter url cMarker)).head?, 1)
  else if strContains url atMarker then
    ((env.searchChannels (segAfter url atMarker)).head?, 1)
  else
    ((env.searchChannels ((pySplit ['/'] (pyRstrip url '/')).getLastD [])).head?, 1)

/-- The Presenter's `if not channel_id:` test (app.py line 104): Python
treats both `None` and the empty string as falsy, and either one routes
the request to the "Could not extract channel ID" error path, i.e. the
NotFound outcome. -/
def channelIdMissing : Option Str → Bool
  | none => true
  | some s => s.isEmpty

/-! ### VideoCollector: `fetch_videos` -/

/-- One item of a `search().list` listing page: `item["id"]["videoId"]`
and `item["snippet"]["title"]`. -/
structure ListItem where
  videoId : String
  title : String
deriving DecidableEq

/-- One listing page: `items` and the optional `nextPageToken`. -/
structure SearchPage where
  items : List ListItem
  nextPageToken : Option String
deriving DecidableEq

/-- `d["statistics"]` of a detail record: `commentCount` may be absent
(comments disabled or not yet populated). -/
structure Statistics where
  commentCount : Option Nat
deriving DecidableEq

/-- One item of a `videos().list` batch detail response: the video id, the
ISO-8601 `contentDetails.duration` string, and the optional statistics
object (`d.get("statistics", {})`). -/
structure DetailItem where
  id : String
  duration : String
  statistics : Option Statistics
deriving DecidableEq

/-- The record `fetch_videos` appends for each detail item. -/
structure VideoRecord where
  id : String
  title : String
  url : String
  duration : ℚ
  comments : Nat
deriving DecidableEq

/-- Failure of `fetch_videos`: `durationError` models the uncaught
`isodate` exception on an unparseable duration; `outOfFuel` marks
exhaustion of the explicit loop bound (never hit on a finite page chain). -/
inductive FetchErr where
  | durationError
  | outOfFuel
deriving DecidableEq

/-- The upstream surface consumed by `fetch_videos`.
`searchList cid tok` models `search().list(channelId=cid, maxResults=50,
pageToken=tok, order="date", type="video")`; `videosList ids` models
`videos().list(part="contentDetails,statistics", id=",".join(ids))`;
`parseDuration` models `isodate.parse_duration(...).total_seconds()`,
with `none` for an unparseable string (the library raises there). -/
structure CollectorEnv where
  searchList : String → Option String → SearchPage
  videosList : List String → List DetailItem
  parseDuration : String → Option ℚ

/-- `title_map.get(vid, "Untitled")`: the dict comprehension
`{item["id"]["videoId"]: item["snippet"]["title"] for item in items}`
keeps the last binding for a duplicated key, so the lookup scans the
reversed item list for the first match. -/
def titleLookup (items : List ListItem) (vid : String) : String :=
  match items.reverse.find? (fun it => it.videoId == vid) with
  | some it => it.title
  | none => "Untitled"

/-- The body of `for d in details.get("items", [])`: build one record per
detail item, in the order of the detail response; an unparseable duration
raises, discarding the whole fetch. -/
def processDetails (env : CollectorEnv) (items : List ListItem) :
    List DetailItem → Except FetchErr (List VideoRecord)
  | [] => .ok []
  | d :: ds =>
    match env.parseDuration d.duration with
    | none => .error .durationError
    | some secs =>
      match processDetails env items ds with
      | .error e => .error e
      | .ok rest =>
        .ok ({ id := d.id,
               title := titleLookup items d.id,
               url := "https://www.youtube.com/watch?v=" ++ d.id,
               duration := secs,
               comments := match d.statistics with
                 | none => 0
                 | some st => st.commentCount.getD 0 } :: rest)

/-- The `while True` pagination loop of `fetch_videos`, with explicit fuel
bounding the number of iterations, the accumulated `videos` list, and a
counter of executed `videos().list` detail-batch calls. -/
def fetchGo (env : CollectorEnv) (channel_id : String) :
    Nat → Option String → List VideoRecord → Nat →
    Except FetchErr (List VideoRecord × Nat)
  | 0, _, _, _ => .error .outOfFuel
  | fuel + 1, next_token, videos, calls =>
    let page := env.searchList channel_id next_token
    let ids := page.items.map ListItem.videoId
    if ids.isEmpty then .ok (videos, calls)
    else
      match processDetails env page.items (env.videosList ids) with
      | .error e => .error e
      | .ok recs =>
        match page.nextPageToken with
        | none => .ok (videos ++ recs, calls + 1)
        | some t => fetchGo env channel_id fuel (some t) (videos ++ recs) (calls + 1)

/-- `fetch_videos(channel_id)` of `app.py`: the returned collection paired
with the number of detail-batch calls executed. -/
def fetch_videos (env : CollectorEnv) (channel_id : String) (fuel : Nat) :
    Except FetchErr (List VideoRecord × Nat) :=
  fetchGo env channel_id fuel none [] 0

/-- The video ids of a listing page, in listing order. -/
def pageIds (p : SearchPage) : List String :=
  p.items.map ListItem.videoId

/-- The record `processDetails` builds for detail item `d` against the
titles of listing items `items` (the `getD 0` is only consulted for an
unparseable duration, in which case no record is built at all). -/
def mkRecord (env : CollectorEnv) (items : List ListItem) (d : DetailItem) :
    VideoRecord :=
  { id := d.id,
    title := titleLookup items d.id,
    url := "https://www.youtube.com/watch?v=" ++ d.id,
    duration := (env.parseDuration d.duration).getD 0,
    comments := match d.statistics with
      | none => 0
      | some st => st.commentCount.getD 0 }

/-- The records one listing page contributes to the collection. -/
def pageRecords (env : CollectorEnv) (p : SearchPage) : List VideoRecord :=
  (env.videosList (pageIds p)).map (mkRecord env p.items)

/-- The finite chain of listing pages the upstream serves starting from
continuation token `tok`: each page is the response to the previous
page's token, and the last page carries no `nextPageToken`. -/
inductive PageChain (env : CollectorEnv) (cid : String) :
    Option String → List SearchPage → Prop
  | last {tok p} : env.searchList cid tok = p → p.nextPageToken = none →
      PageChain env cid tok [p]
  | step {tok p t rest} : env.searchList cid tok = p → p.nextPageToken = some t →
      PageChain env cid (some t) rest → PageChain env cid tok (p :: rest)

/-! ### Presenter: duration filter -/

/-- The Presenter's post-filter on `durationSeconds` (app.py lines 110-115),
keyed by the literal selector strings of the Streamlit selectbox. -/
def filtered_videos (filter_option : String) (all_videos : List VideoRecord) :
    List VideoRecord :=
  if filter_option = "Videos (>3 mins)" then
    all_videos.filter (fun v => decide (v.duration > 180))
  else if filter_option = "Shorts (<=3 mins)" then
    all_videos.filter (fun v => decide (v.duration ≤ 180))
  else
    all_videos

/-! ### Lemmas about the embedded string primitives -/

theorem pySplitF_congr (sep : Str) :
    ∀ (f g : Nat) (s : Str), s.length ≤ f → s.length ≤ g →
      pySplitF sep f s = pySplitF sep g s := by
  intro f
  induction f with
  | zero =>
    intro g s hf _
    have : s = [] := List.length_eq_zero.mp (Nat.le_zero.mp hf)
    subst this
    cases g <;> rfl
  | succ f ih =>
    intro g s hf hg
    cases s with
    | nil => cases g <;> rfl
    | cons c rest =>
      cases g with
      | zero => simp at hg
      | succ g =>
        simp only [pySplitF]
        by_cases hb : sep ≠ [] ∧ sep.isPrefixOf (c :: rest)
        · simp only [if_pos hb]
          have hsep : 1 ≤ sep.length := List.length_pos.mpr hb.1
          have hlen : ((c :: rest).drop sep.length).length ≤ f := by
            simp only [List.length_drop, List.length_cons]
            simp only [List.length_cons] at hf
            omega
          have hlen' : ((c :: rest).drop sep.length).length ≤ g := by
            simp only [List.length_drop, List.length_cons]
            simp only [List.length_cons] at hg
            omega
          rw [ih g _ hlen hlen']
        · simp only [if_neg hb]
          have hr : rest.length ≤ f := by
            simp only [List.length_cons] at hf; omega
          have hr' : rest.length ≤ g := by
            simp only [List.length_cons] at hg; omega
          rw [ih g rest hr hr']

/-- Unfolding `pySplit` on the empty string. -/
theorem pySplit_nil (sep : Str) : pySplit sep [] = [[]] := rfl

/-- Unfolding `pySplit` at a position where `sep` matches. -/
theorem pySplit_cons_pos {sep : Str} (c : Char) (rest : Str)
    (hne : sep ≠ []) (hpre : sep.isPrefixOf (c :: rest)) :
    pySplit sep (c :: rest) = [] :: pySplit sep ((c :: rest).drop sep.length) := by
  have hsep : 1 ≤ sep.length := List.length_pos.mpr hne
  show pySplitF sep (c :: rest).length (c :: rest) = _
  simp only [List.length_cons, pySplitF, if_pos (And.intro hne hpre)]
  congr 1
  exact pySplitF_congr sep rest.length ((c :: rest).drop sep.length).length _
    (by simp only [List.length_drop, List.length_cons]; omega) (Nat.le_refl _)

/-- Unfolding `pySplit` at a position where `sep` does not match. -/
theorem pySplit_cons_neg {sep : Str} (c : Char) (rest : Str)
    (hb : ¬ (sep ≠ [] ∧ sep.isPrefixOf (c :: rest))) :
    pySplit sep (c :: rest) =
      match pySplit sep rest with
      | [] => [[c]]
      | s :: ss => (c :: s) :: ss := by
  show pySplitF sep (c :: rest).length (c :: rest) = _
  simp only [List.length_cons, pySplitF, if_neg hb]
  rfl

/-- `pySplit` always returns at least one chunk. -/
theorem pySplit_ne_nil (sep s : Str) : pySplit sep s ≠ [] := by
  induction s with
  | nil => simp [pySplit_nil]
  | cons c rest ih =>
    by_cases hb : sep ≠ [] ∧ sep.isPrefixOf (c :: rest)
    · rw [pySplit_cons_pos c rest hb.1 hb.2]; simp
    · rw [pySplit_cons_neg c rest hb]
      cases hps : pySplit sep rest <;> simp

/-- Cutting at the first occurrence of the separator: if no occurrence of
`sep` starts inside `a`, then splitting `a ++ sep ++ b` yields `a`
followed by the chunks of `b`. -/
theorem pySplit_first_occurrence (sep : Str) (hsep : sep ≠ []) :
    ∀ (a b : Str),
      (∀ i, i < a.length → ¬ sep.isPrefixOf ((a ++ sep ++ b).drop i)) →
      pySplit sep (a ++ sep ++ b) = a :: pySplit sep b := by
  intro a
  induction a with
  | nil =>
    intro b _
    simp only [List.nil_append]
    cases hs : sep with
    | nil => exact absurd hs hsep
    | cons c s' =>
      subst hs
      have hpre : (c :: s').isPrefixOf (c :: (s' ++ b)) := by
        rw [ List.isPrefixOf_iff_prefix, ← List.cons_append]
        exact List.prefix_append _ _
      rw [List.cons_append, pySplit_cons_pos c (s' ++ b) hsep hpre]
      congr 1
      rw [← List.cons_append, List.drop_left]
  | cons x a' ih =>
    intro b h
    simp only [List.cons_append]
    have hb : ¬ (sep ≠ [] ∧ sep.isPrefixOf (x :: (a' ++ sep ++ b))) := by
      rintro ⟨-, hp⟩
      refine h 0 (by simp) ?_
      simpa using hp
    rw [pySplit_cons_neg x (a' ++ sep ++ b) hb]
    rw [ih b (fun i hi hp => h (i + 1) (by simpa using Nat.succ_lt_succ hi)
      (by simpa using hp))]

/-- The head chunk of splitting `a ++ b` is `a` prepended to the head chunk
of splitting `b`, provided no occurrence of `sep` starts inside `a`. -/
theorem pySplit_headD_append (sep : Str) :
    ∀ (a b : Str),
      (∀ i, i < a.length → ¬ sep.isPrefixOf ((a ++ b).drop i)) →
      (pySplit sep (a ++ b)).headD [] = a ++ (pySplit sep b).headD [] := by
  intro a
  induction a with
  | nil => intro b _; simp
  | cons x a' ih =>
    intro b h
    simp only [List.cons_append]
    have hb : ¬ (sep ≠ [] ∧ sep.isPrefixOf (x :: (a' ++ b))) := by
      rintro ⟨-, hp⟩
      refine h 0 (by simp) ?_
      simpa using hp
    rw [pySplit_cons_neg x (a' ++ b) hb]
    obtain ⟨hd, tl, hps⟩ : ∃ hd tl, pySplit sep (a' ++ b) = hd :: tl := by
      cases hps : pySplit sep (a' ++ b) with
      | nil => exact absurd hps (pySplit_ne_nil sep _)
      | cons hd tl => exact ⟨hd, tl, rfl⟩
    have hih : (pySplit sep (a' ++ b)).headD [] = a' ++ (pySplit sep b).headD [] := by
      apply ih
      intro i hi hp
      exact h (i + 1) (by simpa using Nat.succ_lt_succ hi) (by simpa using hp)
    rw [hps]
    rw [hps] at hih
    simp only [List.headD_cons] at hih ⊢
    rw [hih]

/-- The head chunk of a split is a prefix of the string. -/
theorem pySplit_headD_leading (sep : Str) : ∀ s : Str, (pySplit sep s).headD [] <+: s := by
  intro s
  induction s with
  | nil => simp [pySplit_nil]
  | cons c rest ih =>
    by_cases hb : sep ≠ [] ∧ sep.isPrefixOf (c :: rest)
    · rw [pySplit_cons_pos c rest hb.1 hb.2]
      simp
    · rw [pySplit_cons_neg c rest hb]
      cases hps : pySplit sep rest with
      | nil => exact absurd hps (pySplit_ne_nil sep _)
      | cons hd tl =>
        rw [hps] at ih
        simp only [List.headD_cons] at ih ⊢
        exact List.cons_prefix_cons.mpr ⟨rfl, ih⟩

/-- When the separator occurs nowhere in `s`, the split is the single
chunk `s`. -/
theorem pySplit_no_occurrence (sep : Str) :
    ∀ s : Str, (∀ i, i < s.length → ¬ sep.isPrefixOf (s.drop i)) →
      pySplit sep s = [s] := by
  intro s
  induction s with
  | nil => intro _; exact pySplit_nil sep
  | cons c rest ih =>
    intro h
    have hb : ¬ (sep ≠ [] ∧ sep.isPrefixOf (c :: rest)) := by
      rintro ⟨-, hp⟩
      exact h 0 (by simp) (by simpa using hp)
    rw [pySplit_cons_neg c rest hb]
    rw [ih (fun i hi hp => h (i + 1) (by simpa using Nat.succ_lt_succ hi)
      (by rw [List.drop_succ_cons]; exact hp))]

/-- A separator that starts with `'/'` cannot occur at any position inside
a slash-free block `a` of `a ++ b`. -/
theorem no_occurrence_of_slash_free (sep : Str) (hsep : sep.head? = some '/')
    {a : Str} (ha : '/' ∉ a) (b : Str) :
    ∀ i, i < a.length → ¬ sep.isPrefixOf ((a ++ b).drop i) := by
  intro i hi hpre
  obtain ⟨s', rfl⟩ : ∃ s', sep = '/' :: s' := by
    cases sep with
    | nil => simp at hsep
    | cons x xs =>
      simp only [List.head?_cons, Option.some.injEq] at hsep
      exact ⟨xs, by rw [hsep]⟩
  rw [ List.isPrefixOf_iff_prefix] at hpre
  have hi' : i < (a ++ b).length := by
    simp only [List.length_append]; omega
  rw [List.drop_eq_getElem_cons hi'] at hpre
  rw [List.cons_prefix_cons] at hpre
  have hget : (a ++ b)[i] = a[i] := List.getElem_append_left hi
  have : a[i] ∈ a := List.getElem_mem _
  rw [← hget, ← hpre.1] at this
  exact ha this

/-- Python `sub in s` holds whenever `s` literally contains `sub`. -/
theorem strContains_of_append (sub : Str) : ∀ a b : Str, strContains (a ++ sub ++ b) sub = true := by
  intro a
  induction a with
  | nil =>
    intro b
    simp only [List.nil_append]
    cases hs : sub with
    | nil =>
      cases b with
      | nil => rfl
      | cons c bs => simp [strContains, List.isPrefixOf]
    | cons c s' =>
      simp only [List.cons_append, strContains, Bool.or_eq_true]
      left
      rw [ List.isPrefixOf_iff_prefix, ← List.cons_append]
      exact List.prefix_append _ _
  | cons x a' ih =>
    intro b
    simp only [List.cons_append, strContains, Bool.or_eq_true]
    right
    have := ih b
    simpa using this

/-- Evaluation of the common extraction step: on a URL of the shape
`pre ++ sep ++ X ++ suf` where the marker `sep` first occurs after `pre`,
`X` is slash-free and `suf` is empty or starts with `'/'`,
`url.split(sep)[1].split("/")[0]` is exactly `X`. -/
theorem segAfter_eq (sep : Str) (hsep : sep ≠ []) (hslash : sep.head? = some '/')
    (pre X suf : Str)
    (hfirst : ∀ i, i < pre.length → ¬ sep.isPrefixOf ((pre ++ sep ++ (X ++ suf)).drop i))
    (hX : '/' ∉ X)
    (hsuf : suf = [] ∨ suf.head? = some '/') :
    segAfter (pre ++ sep ++ (X ++ suf)) sep = X := by
  unfold segAfter
  rw [pySplit_first_occurrence sep hsep pre (X ++ suf) hfirst]
  obtain ⟨hd, tl, hps⟩ : ∃ hd tl, pySplit sep (X ++ suf) = hd :: tl := by
    cases hps : pySplit sep (X ++ suf) with
    | nil => exact absurd hps (pySplit_ne_nil sep _)
    | cons hd tl => exact ⟨hd, tl, rfl⟩
  rw [hps]
  show (pySplit ['/'] hd).headD [] = X
  have hhd : hd = X ++ (pySplit sep suf).headD [] := by
    have hh := pySplit_headD_append sep X suf (no_occurrence_of_slash_free sep hslash hX suf)
    rw [hps] at hh
    simpa using hh
  have hpref : (pySplit sep suf).headD [] <+: suf := pySplit_headD_leading sep suf
  have hcases : (pySplit sep suf).headD [] = [] ∨
      ∃ t', (pySplit sep suf).headD [] = '/' :: t' := by
    rcases hsuf with h0 | h0
    · subst h0
      left
      exact List.prefix_nil.mp hpref
    · obtain ⟨d, t, rfl⟩ : ∃ d t, suf = d :: t := by
        cases suf with
        | nil => simp at h0
        | cons d t => exact ⟨d, t, rfl⟩
      simp only [List.head?_cons, Option.some.injEq] at h0
      cases hc : (pySplit sep (d :: t)).headD [] with
      | nil => left; rfl
      | cons e es =>
        right
        rw [hc] at hpref
        have := List.cons_prefix_cons.mp hpref
        exact ⟨es, by rw [this.1, h0]⟩
  rcases hcases with h0 | ⟨t', h0⟩
  · rw [hhd, h0, List.append_nil]
    have hno : ∀ i, i < X.length → ¬ (['/'] : Str).isPrefixOf (X.drop i) := by
      intro i hi hp
      have h2 := no_occurrence_of_slash_free ['/'] rfl hX ([] : Str) i hi
      rw [List.append_nil] at h2
      exact h2 hp
    rw [pySplit_no_occurrence ['/'] X hno]
    rfl
  · rw [hhd, h0]
    rw [pySplit_headD_append ['/'] X ('/' :: t') (no_occurrence_of_slash_free ['/'] rfl hX _)]
    rw [pySplit_cons_pos '/' t' (by simp) (by simp [List.isPrefixOf])]
    simp

/-- The `/channel/` branch on a URL of the shape
`pre ++ "/channel/" ++ X ++ suf` (first marker occurrence after `pre`,
`X` slash-free, `suf` empty or starting with `/`): the extracted segment
is `X` and no API call is executed. Shared by the claims about this
branch; `X` may be empty. -/
theorem get_channel_id_channel_seg (env : ResolverEnv) (pre X suf : Str)
    (hfirst : ∀ i, i < pre.length →
      ¬ chanMarker.isPrefixOf ((pre ++ chanMarker ++ (X ++ suf)).drop i))
    (hXs : '/' ∉ X)
    (hsuf : suf = [] ∨ suf.head? = some '/') :
    get_channel_id env (pre ++ chanMarker ++ (X ++ suf)) = (some X, 0) := by
  have hc : strContains (pre ++ chanMarker ++ (X ++ suf)) chanMarker = true :=
    strContains_of_append chanMarker pre (X ++ suf)
  rw [get_channel_id, if_pos hc]
  rw [segAfter_eq chanMarker (by decide) rfl pre X suf hfirst hXs hsuf]

/-! ### Claim theorems: ChannelResolver -/

/-- Claim C2: `get_channel_id` dispatches by first-match substring containment
in the fixed priority order channel > user > c > @ > fallback: each branch
runs exactly when its marker is contained in the URL and no earlier marker
is; in particular a URL containing both `/c/` and `/@` (and no earlier
marker) takes the `/c/` branch. -/
theorem get_channel_id_dispatch (env : ResolverEnv) (url : Str) :
    (strContains url chanMarker = true →
      get_channel_id env url = channelBranch url) ∧
    (strContains url chanMarker = false → strContains url userMarker = true →
      get_channel_id env url = userBranch env url) ∧
    (strContains url chanMarker = false → strContains url userMarker = false →
      strContains url cMarker = true →
      get_channel_id env url = cBranch env url) ∧
    (strContains url chanMarker = false → strContains url userMarker = false →
      strContains url cMarker = false → strContains url atMarker = true →
      get_channel_id env url = atBranch env url) ∧
    (strContains url chanMarker = false → strContains url userMarker = false →
      strContains url cMarker = false → strContains url atMarker = false →
      get_channel_id env url = fallbackBranch env url) ∧
    (strContains url cMarker = true → strContains url atMarker = true →
      strContains url chanMarker = false → strContains url userMarker = false →
      get_channel_id env url = cBranch env url) := by
  refine ⟨?_, ?_, ?_, ?_, ?_, ?_⟩ <;> intros <;>
    simp_all [get_channel_id, channelBranch, userBranch, cBranch, atBranch, fallbackBranch]

/-- Trivial API environment used by resolver witnesses: the username lookup
returns nothing, the channel search echoes the query with a suffix. -/
def envResolver : ResolverEnv :=
  ⟨fun _ => [], fun q => [q ++ "XX".data]⟩

/-- Witness for C2 at a URL containing both `/c/` and `/@`: the `/c/`
branch is taken, querying the search API with `foo`. -/
theorem get_channel_id_dispatch_witness :
    get_channel_id envResolver "https://www.youtube.com/c/foo/@bar".data =
      cBranch envResolver "https://www.youtube.com/c/foo/@bar".data ∧
    get_channel_id envResolver "https://www.youtube.com/c/foo/@bar".data =
      (some "fooXX".data, 1) :=
  ⟨(get_channel_id_dispatch envResolver "https://www.youtube.com/c/foo/@bar".data).2.2.2.2.2
      (by decide) (by decide) (by decide) (by decide),
    by decide⟩

/-- Claim C3: For every URL of the shape `pre ++ "/channel/" ++ X ++ suf`
whose first `/channel/` occurrence follows `pre`, with `X` a non-empty
slash-free path segment delimited by the next `/` or the end of the
string, `get_channel_id` returns `X` itself and executes zero API calls. -/
theorem get_channel_id_channel_branch (env : ResolverEnv) (pre X suf : Str)
    (hfirst : ∀ i, i < pre.length →
      ¬ chanMarker.isPrefixOf ((pre ++ chanMarker ++ (X ++ suf)).drop i))
    (_hX : X ≠ []) (hXs : '/' ∉ X)
    (hsuf : suf = [] ∨ suf.head? = some '/') :
    get_channel_id env (pre ++ chanMarker ++ (X ++ suf)) = (some X, 0) :=
  get_channel_id_channel_seg env pre X suf hfirst hXs hsuf

/-- Witness for C3: `https://www.youtube.com/channel/UC123/videos`
resolves to `UC123` with zero API calls. -/
theorem get_channel_id_channel_branch_witness :
    get_channel_id envResolver
      ("https://www.youtube.com".data ++ chanMarker ++ ("UC123".data ++ "/videos".data)) =
      (some "UC123".data, 0) :=
  get_channel_id_channel_branch envResolver "https://www.youtube.com".data
    "UC123".data "/videos".data (by decide) (by decide) (by decide)
    (Or.inr (by decide))

/-- Claim C6: For every URL whose first `/channel/` occurrence is followed by
an empty path segment (end of string or an immediate `/`), `get_channel_id`
returns the empty segment, which fails the Presenter's `if not channel_id:`
truthiness test and is surfaced as the NotFound outcome ("Could not extract
channel ID"); no non-empty identifier is returned. -/
theorem get_channel_id_channel_empty (env : ResolverEnv) (pre suf : Str)
    (hfirst : ∀ i, i < pre.length →
      ¬ chanMarker.isPrefixOf ((pre ++ chanMarker ++ suf).drop i))
    (hsuf : suf = [] ∨ suf.head? = some '/') :
    get_channel_id env (pre ++ chanMarker ++ suf) = (some [], 0) ∧
    channelIdMissing (get_channel_id env (pre ++ chanMarker ++ suf)).1 = true := by
  have hfirst' : ∀ i, i < pre.length →
      ¬ chanMarker.isPrefixOf ((pre ++ chanMarker ++ (([] : Str) ++ suf)).drop i) := by
    simpa using hfirst
  have h := get_channel_id_channel_seg env pre [] suf hfirst'
    (by simp) hsuf
  rw [List.nil_append] at h
  exact ⟨h, by rw [h]; rfl⟩

/-- Witness for C6: `https://www.youtube.com/channel/` (empty segment)
yields the empty extraction, which the Presenter's truthiness check routes
to the NotFound error path. -/
theorem get_channel_id_channel_empty_witness :
    get_channel_id envResolver
      ("https://www.youtube.com".data ++ chanMarker ++ ([] : Str)) = (some [], 0) ∧
    channelIdMissing (get_channel_id envResolver
      ("https://www.youtube.com".data ++ chanMarker ++ ([] : Str))).1 = true :=
  get_channel_id_channel_empty envResolver "https://www.youtube.com".data []
    (by decide) (Or.inl rfl)

/-! ### Lemmas about the collector -/

/-- When every duration in the batch parses, the detail loop succeeds and
builds exactly one record per detail item, in detail-response order. -/
theorem processDetails_ok (env : CollectorEnv) (items : List ListItem) :
    ∀ ds : List DetailItem, (∀ d ∈ ds, (env.parseDuration d.duration).isSome) →
      processDetails env items ds = .ok (ds.map (mkRecord env items)) := by
  intro ds
  induction ds with
  | nil => intro _; rfl
  | cons d ds ih =>
    intro h
    obtain ⟨q, hq⟩ := Option.isSome_iff_exists.mp (h d (by simp))
    simp only [processDetails, hq]
    rw [ih (fun x hx => h x (by simp [hx]))]
    simp [mkRecord, hq]

/-- An unparseable duration anywhere in the batch makes the detail loop
raise (the `isodate` exception propagates). -/
theorem processDetails_error (env : CollectorEnv) (items : List ListItem) :
    ∀ ds : List DetailItem, (∃ d ∈ ds, env.parseDuration d.duration = none) →
      processDetails env items ds = .error .durationError := by
  intro ds
  induction ds with
  | nil => rintro ⟨d, hd, -⟩; simp at hd
  | cons d ds ih =>
    rintro ⟨x, hx, hnone⟩
    rcases List.mem_cons.mp hx with rfl | hx'
    · simp [processDetails, hnone]
    · cases hq : env.parseDuration d.duration with
      | none => simp [processDetails, hq]
      | some q =>
        simp only [processDetails, hq]
        rw [ih ⟨x, hx', hnone⟩]

/-- Conversely, a successful detail loop is exactly the mapped records. -/
theorem processDetails_ok_elim (env : CollectorEnv) (items : List ListItem) :
    ∀ (ds : List DetailItem) (recs : List VideoRecord),
      processDetails env items ds = .ok recs →
      recs = ds.map (mkRecord env items) := by
  intro ds
  induction ds with
  | nil =>
    intro recs h
    simp only [processDetails, Except.ok.injEq] at h
    simp [← h]
  | cons d ds ih =>
    intro recs h
    cases hq : env.parseDuration d.duration with
    | none => rw [processDetails, hq] at h; exact absurd h (by simp)
    | some q =>
      rw [processDetails, hq] at h
      cases hrest : processDetails env items ds with
      | error e => rw [hrest] at h; exact absurd h (by simp)
      | ok rest =>
        rw [hrest] at h
        simp only [Except.ok.injEq] at h
        rw [← h, ih rest hrest]
        simp [mkRecord, hq]

/-- A successful detail loop means every duration in the batch parsed. -/
theorem processDetails_ok_parses (env : CollectorEnv) (items : List ListItem)
    (ds : List DetailItem) (recs : List VideoRecord)
    (h : processDetails env items ds = .ok recs) :
    ∀ d ∈ ds, (env.parseDuration d.duration).isSome := by
  intro d hd
  cases hq : env.parseDuration d.duration with
  | some q => rfl
  | none =>
    rw [processDetails_error env items ds ⟨d, hd, hq⟩] at h
    exact absurd h (by simp)

/-- Flattening respects element-wise permutations. -/
theorem flatten_perm_of_forall {α β : Type} (f g : α → List β) :
    ∀ ps : List α, (∀ p ∈ ps, (f p).Perm (g p)) →
      ((ps.map f).flatten).Perm ((ps.map g).flatten) := by
  intro ps
  induction ps with
  | nil => intro _; rfl
  | cons p ps ih =>
    intro h
    simp only [List.map_cons, List.flatten_cons]
    exact (h p (by simp)).append (ih (fun x hx => h x (by simp [hx])))

/-- Mapping over a flattened map of lists. -/
theorem map_flatten_map {α β γ : Type} (h : α → List β) (f : β → γ) :
    ∀ ps : List α,
      ((ps.map h).flatten).map f = (ps.map (fun p => (h p).map f)).flatten := by
  intro ps
  induction ps with
  | nil => rfl
  | cons p ps ih =>
    simp only [List.map_cons, List.flatten_cons, List.map_append, ih]

/-- Main pagination lemma: running the loop over a finite page chain whose
pages are all non-empty, with all durations parseable, consumes the whole
chain, performs one detail-batch call per page, and appends each page's
records in order. -/
theorem fetchGo_chain (env : CollectorEnv) (cid : String) :
    ∀ {tok : Option String} {ps : List SearchPage}, PageChain env cid tok ps →
      (∀ p ∈ ps, p.items ≠ []) →
      (∀ p ∈ ps, ∀ d ∈ env.videosList (pageIds p), (env.parseDuration d.duration).isSome) →
      ∀ fuel, ps.length ≤ fuel → ∀ (videos : List VideoRecord) (calls : Nat),
        fetchGo env cid fuel tok videos calls =
          .ok (videos ++ (ps.map (pageRecords env)).flatten, calls + ps.length) := by
  intro tok ps hch
  induction hch with
  | last htok hnone =>
    rename_i tok p
    intro hne hdur fuel hfuel videos calls
    obtain ⟨f, rfl⟩ : ∃ f, fuel = f + 1 := ⟨fuel - 1, by simp at hfuel; omega⟩
    simp only [fetchGo, htok]
    have hids : (p.items.map ListItem.videoId).isEmpty = false := by
      cases hpi : p.items with
      | nil => exact absurd hpi (hne p (by simp))
      | cons a l => simp [hpi]
    rw [hids]
    simp only [Bool.false_eq_true, if_false]
    rw [processDetails_ok env p.items (env.videosList (p.items.map ListItem.videoId))
      (hdur p (by simp))]
    rw [hnone]
    simp [pageRecords, pageIds]
  | step htok hsome hrest ih =>
    rename_i tok p t rest
    intro hne hdur fuel hfuel videos calls
    obtain ⟨f, rfl⟩ : ∃ f, fuel = f + 1 := ⟨fuel - 1, by simp at hfuel; omega⟩
    simp only [fetchGo, htok]
    have hids : (p.items.map ListItem.videoId).isEmpty = false := by
      cases hpi : p.items with
      | nil => exact absurd hpi (hne p (by simp))
      | cons a l => simp [hpi]
    rw [hids]
    simp only [Bool.false_eq_true, if_false]
    rw [processDetails_ok env p.items (env.videosList (p.items.map ListItem.videoId))
      (hdur p (by simp))]
    rw [hsome]
    have hih := ih (fun x hx => hne x (by simp [hx])) (fun x hx => hdur x (by simp [hx]))
      f (by simp at hfuel; omega)
      (videos ++ (env.videosList (p.items.map ListItem.videoId)).map (mkRecord env p.items))
      (calls + 1)
    simp only [hih, Except.ok.injEq, Prod.mk.injEq]
    constructor
    · rw [List.append_assoc]
      simp [pageRecords, pageIds]
    · simp only [List.length_cons]
      omega

/-- The ids of a page's records are exactly the ids of its detail
response, in detail-response order. -/
theorem pageRecords_map_id (env : CollectorEnv) (p : SearchPage) :
    (pageRecords env p).map VideoRecord.id =
      (env.videosList (pageIds p)).map DetailItem.id := by
  simp [pageRecords, mkRecord, List.map_map, Function.comp]

/-! ### Claim theorems: VideoCollector -/

/-- Claim C4: On a finite chain of listing pages whose continuation tokens
eventually become absent, with every page non-empty, durations parseable,
each batch detail response covering exactly its page's ids (in any order),
and globally distinct listing ids, the pagination loop terminates, issues
exactly one detail-batch call per page, and returns the union of all
pages' videos with no duplicate ids; an empty first page terminates
immediately with an empty collection and zero detail calls. -/
theorem fetch_videos_pagination :
    (∀ (env : CollectorEnv) (cid : String) (ps : List SearchPage) (fuel : Nat),
      PageChain env cid none ps →
      (∀ p ∈ ps, p.items ≠ []) →
      (∀ p ∈ ps, ∀ d ∈ env.videosList (pageIds p), (env.parseDuration d.duration).isSome) →
      (∀ p ∈ ps, ((env.videosList (pageIds p)).map DetailItem.id).Perm (pageIds p)) →
      ((ps.map pageIds).flatten).Nodup →
      ps.length ≤ fuel →
      ∃ videos, fetch_videos env cid fuel = .ok (videos, ps.length) ∧
        (videos.map VideoRecord.id).Perm ((ps.map pageIds).flatten) ∧
        (videos.map VideoRecord.id).Nodup) ∧
    (∀ (env : CollectorEnv) (cid : String) (fuel : Nat),
      0 < fuel → (env.searchList cid none).items = [] →
      fetch_videos env cid fuel = .ok ([], 0)) := by
  constructor
  · intro env cid ps fuel hch hne hdur hperm hnodup hfuel
    refine ⟨(ps.map (pageRecords env)).flatten, ?_, ?_⟩
    · have h := fetchGo_chain env cid hch hne hdur fuel hfuel [] 0
      simpa [fetch_videos] using h
    · have hmap : (((ps.map (pageRecords env)).flatten).map VideoRecord.id).Perm
          ((ps.map pageIds).flatten) := by
        rw [map_flatten_map (pageRecords env) VideoRecord.id ps]
        have hcg : ps.map (fun p => (pageRecords env p).map VideoRecord.id) =
            ps.map (fun p => (env.videosList (pageIds p)).map DetailItem.id) :=
          List.map_congr_left (fun p _ => pageRecords_map_id env p)
        rw [hcg]
        exact flatten_perm_of_forall _ _ ps hperm
      exact ⟨hmap, (hmap.nodup_iff).mpr hnodup⟩
  · intro env cid fuel hfuel hempty
    obtain ⟨f, rfl⟩ : ∃ f, fuel = f + 1 := ⟨fuel - 1, by omega⟩
    simp [fetch_videos, fetchGo, hempty]

/-- First listing page of the three-page witness upstream. -/
def pageA : SearchPage := ⟨[⟨"a1", "ta1"⟩, ⟨"a2", "ta2"⟩], some "A"⟩

/-- Second listing page of the three-page witness upstream. -/
def pageB : SearchPage := ⟨[⟨"b1", "tb1"⟩], some "B"⟩

/-- Last listing page of the three-page witness upstream. -/
def pageC : SearchPage := ⟨[⟨"c1", "tc1"⟩], none⟩

/-- Synthetic upstream serving three pages with continuation tokens
A, then B, then none; the batch detail call echoes the requested ids. -/
def envPages : CollectorEnv :=
  { searchList := fun _ tok =>
      match tok with
      | none => pageA
      | some "A" => pageB
      | some "B" => pageC
      | some _ => ⟨[], none⟩
    videosList := fun ids => ids.map (fun i => ⟨i, "PT1M", some ⟨some 5⟩⟩)
    parseDuration := fun s => if s = "PT1M" then some 60 else none }

/-- Synthetic upstream whose first listing page is empty. -/
def envEmptyPage : CollectorEnv :=
  { searchList := fun _ _ => ⟨[], none⟩
    videosList := fun _ => []
    parseDuration := fun _ => none }

/-- Witness for C4: the three-page upstream yields exactly 3 detail-batch
calls and the union of the pages' ids with no duplicates, and the
empty-first-page upstream yields an empty collection with 0 calls. -/
theorem fetch_videos_pagination_witness :
    (∃ videos, fetch_videos envPages "ch" 3 = .ok (videos, 3) ∧
      (videos.map VideoRecord.id).Perm ((([pageA, pageB, pageC]).map pageIds).flatten) ∧
      (videos.map VideoRecord.id).Nodup) ∧
    fetch_videos envEmptyPage "ch" 1 = .ok ([], 0) :=
  ⟨fetch_videos_pagination.1 envPages "ch" [pageA, pageB, pageC] 3
      (.step rfl rfl (.step rfl rfl (.last rfl rfl)))
      (by decide) (by decide) (by decide) (by decide) (by decide),
    fetch_videos_pagination.2 envEmptyPage "ch" 1 (by decide) rfl⟩

/-- Claim C10: The collection is detail-driven: it contains exactly one
record per item of each page's detail response (ids in detail-response
order), so a video id present in a listing page but absent from that
page's detail response contributes no record at all. -/
theorem fetch_videos_detail_driven :
    ∀ (env : CollectorEnv) (cid : String) (ps : List SearchPage) (fuel : Nat),
      PageChain env cid none ps →
      (∀ p ∈ ps, p.items ≠ []) →
      (∀ p ∈ ps, ∀ d ∈ env.videosList (pageIds p), (env.parseDuration d.duration).isSome) →
      ps.length ≤ fuel →
      ∃ videos, fetch_videos env cid fuel = .ok (videos, ps.length) ∧
        videos.map VideoRecord.id =
          (ps.map (fun p => (env.videosList (pageIds p)).map DetailItem.id)).flatten ∧
        ∀ x, x ∉ (ps.map (fun p => (env.videosList (pageIds p)).map DetailItem.id)).flatten →
          x ∉ videos.map VideoRecord.id := by
  intro env cid ps fuel hch hne hdur hfuel
  refine ⟨(ps.map (pageRecords env)).flatten, ?_, ?_, ?_⟩
  · have h := fetchGo_chain env cid hch hne hdur fuel hfuel [] 0
    simpa [fetch_videos] using h
  · rw [map_flatten_map (pageRecords env) VideoRecord.id ps]
    exact congrArg List.flatten
      (List.map_congr_left (fun p _ => pageRecords_map_id env p))
  · intro x hx hmem
    apply hx
    rw [map_flatten_map (pageRecords env) VideoRecord.id ps] at hmem
    rw [List.map_congr_left (fun p _ => pageRecords_map_id env p)] at hmem
    exact hmem

/-- Single listing page of the dropped-id witness upstream. -/
def pageDropped : SearchPage := ⟨[⟨"a", "ta"⟩, ⟨"b", "tb"⟩, ⟨"c", "tc"⟩], none⟩

/-- Upstream whose detail batch omits listing id `c`. -/
def envDropped : CollectorEnv :=
  { searchList := fun _ _ => pageDropped
    videosList := fun _ => [⟨"a", "PT1M", some ⟨some 1⟩⟩, ⟨"b", "PT1M", none⟩]
    parseDuration := fun s => if s = "PT1M" then some 60 else none }

/-- Witness for C10: listing id `c` has no detail record and so yields no
VideoRecord. -/
theorem fetch_videos_detail_driven_witness :
    ∃ videos, fetch_videos envDropped "ch" 1 = .ok (videos, 1) ∧
      videos.map VideoRecord.id =
        (([pageDropped]).map
          (fun p => (envDropped.videosList (pageIds p)).map DetailItem.id)).flatten ∧
      ∀ x, x ∉ (([pageDropped]).map
          (fun p => (envDropped.videosList (pageIds p)).map DetailItem.id)).flatten →
        x ∉ videos.map VideoRecord.id :=
  fetch_videos_detail_driven envDropped "ch" [pageDropped] 1
    (.last rfl rfl) (by decide) (by decide) (by decide)

/-- Single listing page, in listing order va then vb. -/
def pageSwap : SearchPage := ⟨[⟨"va", "ta"⟩, ⟨"vb", "tb"⟩], none⟩

/-- Upstream whose batch detail response arrives in the opposite order of
the listing page. -/
def envSwap : CollectorEnv :=
  { searchList := fun _ _ => pageSwap
    videosList := fun _ => [⟨"vb", "PT1M", some ⟨some 2⟩⟩, ⟨"va", "PT1M", some ⟨some 1⟩⟩]
    parseDuration := fun _ => some 60 }

/-- Counterexample to C1 as stated: the listing page orders va before vb,
but because the detail batch responds vb before va, the returned
collection lists vb before va — the loop appends records in
detail-response order, so a detail-batch reordering reorders the
collection (only titles are joined by id, not positions). -/
theorem fetch_videos_order_counterexample :
    pageIds (envSwap.searchList "ch" none) = ["va", "vb"] ∧
    fetch_videos envSwap "ch" 1 =
      .ok ([⟨"vb", "tb", "https://www.youtube.com/watch?v=vb", 60, 2⟩,
            ⟨"va", "ta", "https://www.youtube.com/watch?v=va", 60, 1⟩], 1) ∧
    (∃ videos calls, fetch_videos envSwap "ch" 1 = .ok (videos, calls) ∧
      videos.map VideoRecord.id = ["vb", "va"]) :=
  ⟨rfl, rfl,
    ⟨[⟨"vb", "tb", "https://www.youtube.com/watch?v=vb", 60, 2⟩,
      ⟨"va", "ta", "https://www.youtube.com/watch?v=va", 60, 1⟩], 1, rfl, rfl⟩⟩

/-- Claim C1 (amended): The collection concatenates pages in listing-page
order and, within each page, follows the batch detail response order with
titles joined by id lookup; whenever each page's detail response lists
ids in that page's listing order, the platform's full listing order is
preserved. -/
theorem fetch_videos_order_amended :
    ∀ (env : CollectorEnv) (cid : String) (ps : List SearchPage) (fuel : Nat),
      PageChain env cid none ps →
      (∀ p ∈ ps, p.items ≠ []) →
      (∀ p ∈ ps, ∀ d ∈ env.videosList (pageIds p), (env.parseDuration d.duration).isSome) →
      (∀ p ∈ ps, (env.videosList (pageIds p)).map DetailItem.id = pageIds p) →
      ps.length ≤ fuel →
      ∃ videos, fetch_videos env cid fuel = .ok (videos, ps.length) ∧
        videos.map VideoRecord.id = (ps.map pageIds).flatten := by
  intro env cid ps fuel hch hne hdur hids hfuel
  refine ⟨(ps.map (pageRecords env)).flatten, ?_, ?_⟩
  · have h := fetchGo_chain env cid hch hne hdur fuel hfuel [] 0
    simpa [fetch_videos] using h
  · rw [map_flatten_map (pageRecords env) VideoRecord.id ps]
    exact congrArg List.flatten (List.map_congr_left
      (fun p hp => (pageRecords_map_id env p).trans (hids p hp)))

/-- Witness for the amended C1: on the three-page upstream whose detail
batches echo the listing order, the collection's ids are exactly the
concatenated listing ids. -/
theorem fetch_videos_order_amended_witness :
    ∃ videos, fetch_videos envPages "ch" 3 = .ok (videos, 3) ∧
      videos.map VideoRecord.id = (([pageA, pageB, pageC]).map pageIds).flatten :=
  fetch_videos_order_amended envPages "ch" [pageA, pageB, pageC] 3
    (.step rfl rfl (.step rfl rfl (.last rfl rfl)))
    (by decide) (by decide) (by decide) (by decide)

/-- Upstream whose single detail record carries an unparseable duration
representation. -/
def envBadDuration : CollectorEnv :=
  { searchList := fun _ _ => ⟨[⟨"v1", "t1"⟩], none⟩
    videosList := fun _ => [⟨"v1", "BOGUS", some ⟨some 2⟩⟩]
    parseDuration := fun _ => none }

/-- Counterexample to C5 as stated: with an unparseable duration the
collector does not construct a record with durationSeconds 0 — the
`isodate` exception propagates and the whole fetch fails, returning no
collection at all. -/
theorem fetch_videos_unparseable_counterexample :
    fetch_videos envBadDuration "ch" 1 = .error .durationError ∧
    ∀ out, fetch_videos envBadDuration "ch" 1 ≠ .ok out := by
  refine ⟨rfl, ?_⟩
  intro out h
  rw [show fetch_videos envBadDuration "ch" 1 = .error .durationError from rfl] at h
  exact Except.noConfusion h

/-- Claim C5 (amended): For every detail batch the collector processes: if
any record's duration representation is unparseable, the parse exception
propagates and the fetch fails (no record with durationSeconds 0 is
constructed); when every representation parses, each constructed record's
durationSeconds is exactly the parsed value. -/
theorem processDetails_duration :
    ∀ (env : CollectorEnv) (items : List ListItem) (ds : List DetailItem),
      ((∃ d ∈ ds, env.parseDuration d.duration = none) →
        processDetails env items ds = .error .durationError) ∧
      (∀ recs, processDetails env items ds = .ok recs →
        recs.length = ds.length ∧
        ∀ i (hi : i < ds.length) (hi' : i < recs.length),
          env.parseDuration ((ds.get ⟨i, hi⟩).duration) =
            some ((recs.get ⟨i, hi'⟩).duration)) := by
  intro env items ds
  constructor
  · exact processDetails_error env items ds
  · intro recs hok
    have hall := processDetails_ok_parses env items ds recs hok
    have hrecs := processDetails_ok_elim env items ds recs hok
    subst hrecs
    refine ⟨by simp, ?_⟩
    intro i hi hi'
    obtain ⟨q, hq⟩ := Option.isSome_iff_exists.mp
      (hall (ds.get ⟨i, hi⟩) (List.get_mem ds i hi))
    simp only [List.get_eq_getElem, List.getElem_map]
    simp only [List.get_eq_getElem] at hq
    simp [mkRecord, hq]

/-- Witness for the amended C5: on the unparseable upstream the detail
loop raises, and on a parseable batch the parsed value (120 seconds) is
stored. -/
theorem processDetails_duration_witness :
    processDetails envBadDuration [⟨"v1", "t1"⟩] [⟨"v1", "BOGUS", some ⟨some 2⟩⟩] =
      .error .durationError ∧
    envPages.parseDuration "PT1M" = some 60 :=
  ⟨(processDetails_duration envBadDuration [⟨"v1", "t1"⟩]
      [⟨"v1", "BOGUS", some ⟨some 2⟩⟩]).1 ⟨⟨"v1", "BOGUS", some ⟨some 2⟩⟩, by simp, rfl⟩,
    ((processDetails_duration envPages [⟨"v1", "t1"⟩]
      [⟨"v1", "PT1M", some ⟨some 5⟩⟩]).2
      [⟨"v1", "t1", "https://www.youtube.com/watch?v=v1", 60, 5⟩] rfl).2 0
      (by decide) (by decide)⟩

/-- Claim C7: For every detail record the collector processes, a missing
comment-count statistic (either the statistics object or its commentCount
field absent) yields commentCount 0 without any error — success of the
batch depends only on duration parsing — and a present statistic is
stored as-is. -/
theorem processDetails_comments :
    ∀ (env : CollectorEnv) (items : List ListItem) (ds : List DetailItem),
      ((∀ d ∈ ds, (env.parseDuration d.duration).isSome) →
        ∃ recs, processDetails env items ds = .ok recs) ∧
      (∀ recs, processDetails env items ds = .ok recs →
        recs.length = ds.length ∧
        ∀ i (hi : i < ds.length) (hi' : i < recs.length),
          (((ds.get ⟨i, hi⟩).statistics = none ∨
              (ds.get ⟨i, hi⟩).statistics = some ⟨none⟩) →
            (recs.get ⟨i, hi'⟩).comments = 0) ∧
          (∀ n, (ds.get ⟨i, hi⟩).statistics = some ⟨some n⟩ →
            (recs.get ⟨i, hi'⟩).comments = n)) := by
  intro env items ds
  constructor
  · intro h
    exact ⟨ds.map (mkRecord env items), processDetails_ok env items ds h⟩
  · intro recs hok
    have hrecs := processDetails_ok_elim env items ds recs hok
    subst hrecs
    refine ⟨by simp, ?_⟩
    intro i hi hi'
    constructor
    · intro hstat
      simp only [List.get_eq_getElem, List.getElem_map] at hstat ⊢
      rcases hstat with h0 | h0 <;> simp [mkRecord, h0]
    · intro n h0
      simp only [List.get_eq_getElem, List.getElem_map] at h0 ⊢
      simp [mkRecord, h0]

/-- Detail batch exercising the three comment-count shapes: statistics
absent, statistics present without commentCount, and commentCount 9. -/
def dsComments : List DetailItem :=
  [⟨"v1", "PT1M", none⟩, ⟨"v2", "PT1M", some ⟨none⟩⟩, ⟨"v3", "PT1M", some ⟨some 9⟩⟩]

/-- The records the collector builds from `dsComments`. -/
def recsComments : List VideoRecord :=
  [⟨"v1", "t1", "https://www.youtube.com/watch?v=v1", 60, 0⟩,
   ⟨"v2", "Untitled", "https://www.youtube.com/watch?v=v2", 60, 0⟩,
   ⟨"v3", "Untitled", "https://www.youtube.com/watch?v=v3", 60, 9⟩]

/-- Witness for C7: both flavours of a missing statistic give comment
count 0 with no error, and a present statistic of 9 is stored as 9. -/
theorem processDetails_comments_witness :
    (∃ recs, processDetails envPages [⟨"v1", "t1"⟩] dsComments = .ok recs) ∧
    (recsComments.get ⟨1, by decide⟩).comments = 0 ∧
    (recsComments.get ⟨2, by decide⟩).comments = 9 := by
  refine ⟨?_, ?_, ?_⟩
  · exact (processDetails_comments envPages [⟨"v1", "t1"⟩] dsComments).1 (by decide)
  · exact (((processDetails_comments envPages [⟨"v1", "t1"⟩] dsComments).2
      recsComments rfl).2 1 (by decide) (by decide)).1 (Or.inr rfl)
  · exact (((processDetails_comments envPages [⟨"v1", "t1"⟩] dsComments).2
      recsComments rfl).2 2 (by decide) (by decide)).2 9 rfl

/-- Accumulator-passing form of the URL invariant over the loop. -/
theorem fetchGo_url_aux (env : CollectorEnv) (cid : String) :
    ∀ (fuel : Nat) (tok : Option String) (acc : List VideoRecord) (calls : Nat)
      (videos : List VideoRecord) (n : Nat),
      (∀ v ∈ acc, v.url = "https://www.youtube.com/watch?v=" ++ v.id) →
      fetchGo env cid fuel tok acc calls = .ok (videos, n) →
      ∀ v ∈ videos, v.url = "https://www.youtube.com/watch?v=" ++ v.id := by
  intro fuel
  induction fuel with
  | zero =>
    intro tok acc calls videos n _ h
    exact absurd h (by simp [fetchGo])
  | succ f ih =>
    intro tok acc calls videos n hacc h
    simp only [fetchGo] at h
    by_cases hids : ((env.searchList cid tok).items.map ListItem.videoId).isEmpty = true
    · rw [if_pos hids] at h
      simp only [Except.ok.injEq, Prod.mk.injEq] at h
      rw [← h.1]
      exact hacc
    · rw [if_neg hids] at h
      cases hpd : processDetails env (env.searchList cid tok).items
          (env.videosList ((env.searchList cid tok).items.map ListItem.videoId)) with
      | error e =>
        simp only [hpd] at h
        exact absurd h (by simp)
      | ok recs =>
        simp only [hpd] at h
        have hrecs : ∀ v ∈ recs, v.url = "https://www.youtube.com/watch?v=" ++ v.id := by
          intro v hv
          rw [processDetails_ok_elim env _ _ recs hpd] at hv
          obtain ⟨d, -, rfl⟩ := List.mem_map.mp hv
          simp [mkRecord]
        have hboth : ∀ v ∈ acc ++ recs, v.url = "https://www.youtube.com/watch?v=" ++ v.id := by
          intro v hv
          rcases List.mem_append.mp hv with hv' | hv'
          · exact hacc v hv'
          · exact hrecs v hv'
        cases hnext : (env.searchList cid tok).nextPageToken with
        | none =>
          simp only [hnext, Except.ok.injEq, Prod.mk.injEq] at h
          rw [← h.1]
          exact hboth
        | some t =>
          simp only [hnext] at h
          exact ih (some t) (acc ++ recs) (calls + 1) videos n hboth h

/-- Claim C9: Every record of every successfully returned collection has
`url = "https://www.youtube.com/watch?v=" ++ id`. -/
theorem fetch_videos_url_invariant :
    ∀ (env : CollectorEnv) (cid : String) (fuel : Nat)
      (videos : List VideoRecord) (n : Nat),
      fetch_videos env cid fuel = .ok (videos, n) →
      ∀ v ∈ videos, v.url = "https://www.youtube.com/watch?v=" ++ v.id := by
  intro env cid fuel videos n h
  exact fetchGo_url_aux env cid fuel none [] 0 videos n (by simp) h

/-- One-page, one-video upstream for the URL-invariant witness. -/
def envUrl : CollectorEnv :=
  { searchList := fun _ _ => ⟨[⟨"w", "tw"⟩], none⟩
    videosList := fun _ => [⟨"w", "PT2M", some ⟨some 7⟩⟩]
    parseDuration := fun s => if s = "PT2M" then some 120 else none }

/-- Witness for C9 on the concrete one-video upstream. -/
theorem fetch_videos_url_invariant_witness :
    VideoRecord.url ⟨"w", "tw", "https://www.youtube.com/watch?v=w", 120, 7⟩ =
      "https://www.youtube.com/watch?v=" ++
        VideoRecord.id ⟨"w", "tw", "https://www.youtube.com/watch?v=w", 120, 7⟩ :=
  fetch_videos_url_invariant envUrl "ch" 1
    [⟨"w", "tw", "https://www.youtube.com/watch?v=w", 120, 7⟩] 1 rfl
    ⟨"w", "tw", "https://www.youtube.com/watch?v=w", 120, 7⟩
    (List.mem_singleton.mpr rfl)

/-! ### Claim theorem: Presenter filter -/

/-- Example records with durations 90, 180, 181 and 300 seconds. -/
def exRecords : List VideoRecord :=
  [⟨"a", "ta", "ua", 90, 1⟩, ⟨"b", "tb", "ub", 180, 2⟩,
   ⟨"c", "tc", "uc", 181, 3⟩, ⟨"d", "td", "ud", 300, 4⟩]

/-- Claim C8: The Presenter's duration filter keeps exactly the records with
duration > 180 under "Videos (>3 mins)", exactly those with
duration ≤ 180 under "Shorts (<=3 mins)" (the boundary 180 is a Short),
and everything under "Both"; on the example durations [90, 180, 181, 300]
Shorts keeps 90 and 180, Videos keeps 181 and 300, Both keeps all four. -/
theorem filtered_videos_spec :
    ∀ (vs : List VideoRecord) (v : VideoRecord),
      (v ∈ filtered_videos "Videos (>3 mins)" vs ↔ v ∈ vs ∧ 180 < v.duration) ∧
      (v ∈ filtered_videos "Shorts (<=3 mins)" vs ↔ v ∈ vs ∧ v.duration ≤ 180) ∧
      filtered_videos "Both" vs = vs ∧
      (v.duration = 180 → v ∈ vs →
        v ∈ filtered_videos "Shorts (<=3 mins)" vs ∧
        v ∉ filtered_videos "Videos (>3 mins)" vs) ∧
      (filtered_videos "Shorts (<=3 mins)" exRecords).map VideoRecord.duration =
        [90, 180] ∧
      (filtered_videos "Videos (>3 mins)" exRecords).map VideoRecord.duration =
        [181, 300] ∧
      filtered_videos "Both" exRecords = exRecords := by
  intro vs v
  have hvid : filtered_videos "Videos (>3 mins)" vs =
      vs.filter (fun r => decide (r.duration > 180)) := by
    rw [filtered_videos, if_pos rfl]
  have hsho : filtered_videos "Shorts (<=3 mins)" vs =
      vs.filter (fun r => decide (r.duration ≤ 180)) := by
    rw [filtered_videos, if_neg (by decide), if_pos rfl]
  have hboth : ∀ ws : List VideoRecord, filtered_videos "Both" ws = ws := by
    intro ws
    rw [filtered_videos, if_neg (by decide), if_neg (by decide)]
  have h1 : v ∈ filtered_videos "Videos (>3 mins)" vs ↔ v ∈ vs ∧ 180 < v.duration := by
    rw [hvid]
    simp [List.mem_filter]
  have h2 : v ∈ filtered_videos "Shorts (<=3 mins)" vs ↔ v ∈ vs ∧ v.duration ≤ 180 := by
    rw [hsho]
    simp [List.mem_filter]
  refine ⟨h1, h2, hboth vs, ?_, by decide, by decide, hboth exRecords⟩
  intro hd hv
  constructor
  · exact h2.mpr ⟨hv, by rw [hd]⟩
  · intro hmem
    have hlt := (h1.mp hmem).2
    rw [hd] at hlt
    exact lt_irrefl _ hlt

/-- Witness for C8: the boundary record of duration exactly 180 seconds is
kept by "Shorts (<=3 mins)" and rejected by "Videos (>3 mins)". -/
theorem filtered_videos_spec_witness :
    (⟨"b", "tb", "ub", 180, 2⟩ : VideoRecord) ∈
        filtered_videos "Shorts (<=3 mins)" exRecords ∧
    (⟨"b", "tb", "ub", 180, 2⟩ : VideoRecord) ∉
        filtered_videos "Videos (>3 mins)" exRecords :=
  (filtered_videos_spec exRecords ⟨"b", "tb", "ub", 180, 2⟩).2.2.2.1 rfl (by decide)

end CommentsCount
